import Mathlib

/-!
Shallow embedding of `src/graph_viz/app.py` (Farcaster subgraph visualizer).

The computational core of the repository is the module-level functions
`calculate_connection_strength`, `filter_graph`, `normalize_value` and
`get_elements`, plus the guard logic of the Dash callbacks `build_graph`
and `update_elements`.  Python numbers (timestamps, normalized weights,
centralities) are modelled as rationals; Python exceptions are modelled by
`Option` (a `none` result means the Python function raises).

The full interaction graph is a networkx multi-digraph built by
`GraphBuilder` (not part of the sources): per the spec's data model an
`InteractionEvent` has a source id, a target id, a numeric timestamp and an
edge-type label, and the graph is a set of attributed accounts plus a
multiset of such events.
-/

/- Batteries marks the rational-number operations irreducible, which
blocks kernel evaluation of concrete snapshots; restore the default
reducibility so that `decide` can evaluate them. -/
attribute [local semireducible] Rat.add Rat.mul Rat.sub Rat.inv
  Rat.ofScientific

namespace GraphViz

/-- One raw interaction event: a parallel directed edge of the multigraph.
`edgeType` is optional because `get_elements` reads it with
`edge[2].get('edge_type', 'Unknown')`. -/
structure Event where
  source : String
  target : String
  timestamp : ℚ
  edgeType : Option String
deriving DecidableEq, Repr

/-- Node attributes: the account record.  All fields are read through
`data.get(..., default)` in the source, hence optional. -/
structure NodeAttrs where
  username : Option String
  followerCount : Option Nat
  followingCount : Option Nat
deriving DecidableEq, Repr

/-- The (filtered) interaction graph: attributed nodes plus the multiset of
timestamped events, i.e. a networkx `MultiDiGraph`. -/
structure Graph where
  nodes : List (String × NodeAttrs)
  events : List Event
deriving DecidableEq, Repr

def Graph.nodeIds (G : Graph) : List String := G.nodes.map Prod.fst

/-- Well-formedness maintained by networkx: adding an edge adds its
endpoints, so every event endpoint is a node of the graph. -/
def Graph.wf (G : Graph) : Prop :=
  ∀ e ∈ G.events, e.source ∈ G.nodeIds ∧ e.target ∈ G.nodeIds

instance (G : Graph) : Decidable G.wf := by
  unfold Graph.wf; infer_instance

/-- Association-list lookup (Python dict lookup; keys are unique in every
dict we build, and lookup returns the first binding). -/
def lookupA {α β : Type} [DecidableEq α] (k : α) : List (α × β) → Option β
  | [] => none
  | p :: rest => if p.1 = k then some p.2 else lookupA k rest

/-- `len(G.get_edge_data(u, v, default={}))` on a `MultiDiGraph`: the number
of parallel edges (events) from `u` to `v`. -/
def countEdges (G : Graph) (u v : String) : Nat :=
  (G.events.filter (fun e => decide (e.source = u ∧ e.target = v))).length

/-- Python `min(strengths) if strengths else 0`. -/
def minStrength : List Nat → Nat
  | [] => 0
  | x :: xs => xs.foldl Nat.min x

/-- `calculate_connection_strength` (app.py lines 24-36): for every
non-core node, the minimum over all core nodes of the number of parallel
edges between the node and the core node, in both directions. -/
def calculate_connection_strength (G : Graph) (coreNodes : List String) :
    List (String × Nat) :=
  (G.nodeIds.filter (fun n => decide (n ∉ coreNodes))).map (fun node =>
    (node, minStrength (coreNodes.map (fun c =>
      countEdges G node c + countEdges G c node))))

/-- Insertion step of a stable descending sort by strength (Python
`sorted(..., key=connection_strength.get, reverse=True)`; tie-break order
among equal strengths is implementation-defined upstream, since it depends
on set/dict iteration order). -/
def insertDesc (strength : List (String × Nat)) (x : String) :
    List String → List String
  | [] => [x]
  | y :: ys =>
      if (lookupA y strength).getD 0 ≥ (lookupA x strength).getD 0 then
        y :: insertDesc strength x ys
      else x :: y :: ys

def sortDesc (strength : List (String × Nat)) : List String → List String
  | [] => []
  | x :: xs => insertDesc strength x (sortDesc strength xs)

/-- `filter_graph` (app.py lines 38-42): keep the top `topN` non-core nodes
by global connection strength plus the core nodes; `G.subgraph(...)`
restricts to nodes actually in `G` (ids not in `G` are silently ignored)
and keeps the events with both endpoints kept. -/
def filter_graph (G : Graph) (coreNodes : List String) (topN : Nat) : Graph :=
  let cs := calculate_connection_strength G coreNodes
  let topNodes := (sortDesc cs (cs.map Prod.fst)).take topN
  let keep := topNodes ++ coreNodes
  { nodes := G.nodes.filter (fun p => decide (p.1 ∈ keep)),
    events := G.events.filter (fun e =>
      decide (e.source ∈ keep ∧ e.target ∈ keep)) }

/-- `normalize_value` (app.py lines 44-47). -/
def normalize_value (value minVal maxVal newMin newMax : ℚ) : ℚ :=
  if maxVal = minVal then newMin
  else ((value - minVal) / (maxVal - minVal)) * (newMax - newMin) + newMin

/-- Python `int()` on a rational: truncation toward zero. -/
def pyInt (q : ℚ) : ℤ := if 0 ≤ q then ⌊q⌋ else ⌈q⌉

/-- Python slice `l[:n]` for an `int` bound `n` (a negative bound drops
`-n` elements from the end). -/
def pySlice {α : Type} (l : List α) (n : ℤ) : List α :=
  if 0 ≤ n then l.take n.toNat
  else l.take (l.length - min l.length (-n).toNat)

/-! ### Snapshot builder: aggregation of events up to the cutoff -/

/-- The events selected at a cutoff (`edge[2]['timestamp'] <= timestamp`,
app.py line 56). -/
def qualifyingEvents (G : Graph) (timestamp : ℚ) : List Event :=
  G.events.filter (fun e => decide (e.timestamp ≤ timestamp))

/-- Active node set: core nodes plus every endpoint of a qualifying event
(app.py lines 51, 59-60).  A Python `set`; modelled as a duplicate-free
list. -/
def activeNodes (G : Graph) (timestamp : ℚ) (coreNodes : List String) :
    List String :=
  (coreNodes ++ (qualifyingEvents G timestamp).flatMap
    (fun e => [e.source, e.target])).dedup

/-- `tuple(sorted((source, target)))` (app.py line 64): the canonical
unordered key of an aggregated edge.  Python compares strings
lexicographically by code point, i.e. by their character lists. -/
def edgeKey (s t : String) : String × String :=
  if s.data ≤ t.data then (s, t) else (t, s)

/-- One aggregated edge record (the `'data'` dict built at app.py
lines 66-82).  `edgeTypes` is the `Counter` of type labels kept as the
list of labels; `interactions` is the initiated-by breakdown kept as the
list of (initiator, type) increments; `normalizedWeight` is filled by the
normalization pass. -/
structure EdgeData where
  source : String
  target : String
  weight : Nat
  edgeTypes : List String
  edgeToCore : Bool
  interactions : List (String × String)
  normalizedWeight : Option ℚ
deriving DecidableEq, Repr

def initEdgeData (e : Event) : EdgeData :=
  { source := e.source, target := e.target, weight := 1,
    edgeTypes := [e.edgeType.getD "Unknown"], edgeToCore := false,
    interactions := [(e.source, e.edgeType.getD "Unknown")],
    normalizedWeight := none }

def bumpEdgeData (d : EdgeData) (e : Event) : EdgeData :=
  { d with weight := d.weight + 1,
           edgeTypes := d.edgeTypes ++ [e.edgeType.getD "Unknown"],
           interactions := d.interactions ++ [(e.source, e.edgeType.getD "Unknown")] }

/-- Processing one qualifying event into `edge_dict` (app.py lines 62-82):
self-loops are skipped; otherwise the canonical key is created or its
record updated in place. -/
def addEvent (dict : List ((String × String) × EdgeData)) (e : Event) :
    List ((String × String) × EdgeData) :=
  if e.source = e.target then dict
  else
    let key := edgeKey e.source e.target
    match lookupA key dict with
    | none => dict ++ [(key, initEdgeData e)]
    | some _ => dict.map (fun kv =>
        if kv.1 = key then (kv.1, bumpEdgeData kv.2 e) else kv)

/-- `edge_dict` after the event loop. -/
def buildEdgeDict (G : Graph) (timestamp : ℚ) :
    List ((String × String) × EdgeData) :=
  (qualifyingEvents G timestamp).foldl addEvent []

/-- The maximum aggregated weight of the snapshot (app.py line 86,
`max(...)` over a non-empty dict). -/
def maxWeight (dict : List ((String × String) × EdgeData)) : Nat :=
  match dict.map (fun kv => kv.2.weight) with
  | [] => 0
  | w :: ws => ws.foldl Nat.max w

/-- Thickness normalization pass (app.py lines 84-91). -/
def normalizeDict (dict : List ((String × String) × EdgeData)) :
    List ((String × String) × EdgeData) :=
  if dict.isEmpty then dict
  else dict.map (fun kv =>
    let nw := normalize_value (kv.2.weight : ℚ) 1 (maxWeight dict : ℚ) 1.5 15
    (kv.1, { kv.2 with normalizedWeight := some nw }))

/-! ### The snapshot's undirected simple projection (`temp_G`) -/

/-- `temp_G.has_edge(u, v)`: `temp_G` is a simple undirected `nx.Graph`
holding one edge per unordered endpoint pair of a qualifying event
(app.py lines 93-96); self-loop events do produce a self-loop edge. -/
def hasSimpleEdge (G : Graph) (timestamp : ℚ) (u v : String) : Bool :=
  (qualifyingEvents G timestamp).any (fun e =>
    decide ((e.source = u ∧ e.target = v) ∨ (e.source = v ∧ e.target = u)))

/-- Local connection strength (app.py lines 98-109): computed on `temp_G`,
a simple graph, where `number_of_edges(node, core)` is `1` when the edge
exists and the `else` branch appends `0`. -/
def localConnectionStrength (G : Graph) (timestamp : ℚ)
    (coreNodes : List String) : List (String × Nat) :=
  ((activeNodes G timestamp coreNodes).filter
      (fun n => decide (n ∉ coreNodes))).map (fun node =>
    (node, minStrength (coreNodes.map (fun c =>
      if hasSimpleEdge G timestamp node c then 1 else 0))))

/-- `sorted_nodes` (app.py line 112): the snapshot-local ranking. -/
def sortedNodes (G : Graph) (timestamp : ℚ) (coreNodes : List String) :
    List String :=
  let cs := localConnectionStrength G timestamp coreNodes
  sortDesc cs (cs.map Prod.fst)

/-- `min(all_timestamps)` over every edge of the (filtered) graph
(app.py lines 115-116); the default is never reached because
`get_elements` fails earlier on an event-free graph. -/
def minTimestamp (G : Graph) : ℚ :=
  match G.events.map Event.timestamp with
  | [] => 0
  | t :: ts => ts.foldl min t

def maxTimestamp (G : Graph) : ℚ :=
  match G.events.map Event.timestamp with
  | [] => 0
  | t :: ts => ts.foldl max t

/-- `N = min(int(normalize_value(timestamp, min_timestamp, max_timestamp,
1, 10)), 10)` (app.py line 119). -/
def rankN (G : Graph) (timestamp : ℚ) : ℤ :=
  min (pyInt (normalize_value timestamp (minTimestamp G) (maxTimestamp G) 1 10)) 10

/-- `top_N_nodes = sorted_nodes[:N]` (app.py line 120). -/
def topNNodes (G : Graph) (timestamp : ℚ) (coreNodes : List String) :
    List String :=
  pySlice (sortedNodes G timestamp coreNodes) (rankN G timestamp)

/-- Spotlight marking (app.py lines 122-131): every aggregated edge gets
`edge_to_core` set to whether it directly joins a top-N node and a core
node. -/
def markEdges (dict : List ((String × String) × EdgeData))
    (topN coreNodes : List String) : List ((String × String) × EdgeData) :=
  dict.map (fun kv =>
    let flag := decide ((kv.2.source ∈ topN ∧ kv.2.target ∈ coreNodes) ∨
                        (kv.2.target ∈ topN ∧ kv.2.source ∈ coreNodes))
    (kv.1, { kv.2 with edgeToCore := flag }))

/-! ### Graph-library routines used on `temp_G`

The spec fixes the algorithmic contracts of the networkx routines the
source calls (`degree_centrality`, `betweenness_centrality`,
`shortest_path`): unweighted BFS shortest paths, degree over `n - 1`,
standard normalized betweenness.  They are reimplemented here over the
node list and adjacency predicate of `temp_G`. -/

/-- One BFS expansion step: the unvisited nodes adjacent to the current
frontier. -/
def bfsStep (adj : String → String → Bool) (nodes visitedKeys frontier : List String) :
    List String :=
  nodes.filter (fun v =>
    decide (v ∉ visitedKeys) && frontier.any (fun u => adj u v))

/-- Fuel-bounded BFS layering; `visited` carries each reached node with its
hop distance from the start. -/
def bfsAux (adj : String → String → Bool) (nodes : List String) :
    Nat → List (String × Nat) → List String → Nat → List (String × Nat)
  | 0, visited, _, _ => visited
  | fuel + 1, visited, frontier, d =>
      let next := bfsStep adj nodes (visited.map Prod.fst) frontier
      if next.isEmpty then visited
      else bfsAux adj nodes fuel (visited ++ next.map (fun v => (v, d + 1))) next (d + 1)

/-- Modelled from the spec: unweighted BFS shortest-path distances from `s`
inside the snapshot's undirected simple projection (every edge costs one
hop); nodes missing from the result are unreachable. -/
def bfsDistances (adj : String → String → Bool) (nodes : List String)
    (s : String) : List (String × Nat) :=
  bfsAux adj nodes nodes.length [(s, 0)] [s] 0

/-- Number-of-shortest-paths table: layer `k` nodes accumulate the path
counts of their distance-`k - 1` neighbours. -/
def sigmaStep (adj : String → String → Bool) (nodes : List String)
    (dists : List (String × Nat)) (acc : List (String × Nat)) (k : Nat) :
    List (String × Nat) :=
  acc ++ (nodes.filter (fun v => decide (lookupA v dists = some k))).map (fun v =>
    (v, ((nodes.filter (fun u =>
        adj u v && decide (lookupA u dists = some (k - 1)))).map (fun u =>
      (lookupA u acc).getD 0)).sum))

/-- Modelled from the spec: the number of distinct unweighted shortest
paths from `s` to each reachable node. -/
def sigmas (adj : String → String → Bool) (nodes : List String)
    (s : String) : List (String × Nat) :=
  let dists := bfsDistances adj nodes s
  (List.range nodes.length).foldl
    (fun acc i => sigmaStep adj nodes dists acc (i + 1)) [(s, 1)]

def sigmaST (adj : String → String → Bool) (nodes : List String)
    (s t : String) : Nat :=
  (lookupA t (sigmas adj nodes s)).getD 0

/-- Pair-dependency of `v` on the ordered pair `(s, t)`: the fraction of
shortest `s`-`t` paths passing through `v`. -/
def spRatio (adj : String → String → Bool) (nodes : List String)
    (s t v : String) : ℚ :=
  match lookupA v (bfsDistances adj nodes s) with
  | none => 0
  | some dsv =>
      match lookupA t (bfsDistances adj nodes v) with
      | none => 0
      | some dvt =>
          match lookupA t (bfsDistances adj nodes s) with
          | none => 0
          | some dst =>
              if dsv + dvt = dst then
                ((sigmaST adj nodes s v * sigmaST adj nodes v t : Nat) : ℚ) /
                  ((sigmaST adj nodes s t : Nat) : ℚ)
              else 0

/-- Modelled from the spec: standard unweighted shortest-path betweenness
centrality with networkx's default normalization (`normalized=True` on an
undirected graph: ordered-pair sum scaled by `1 / ((n-1)(n-2))` when
`n > 2`, unscaled otherwise). -/
def betweennessCent (adj : String → String → Bool) (nodes : List String)
    (v : String) : ℚ :=
  let n := nodes.length
  let scale : ℚ := if n > 2 then 1 / (((n : ℚ) - 1) * ((n : ℚ) - 2)) else 1
  scale * ((nodes.map (fun s =>
    (nodes.map (fun t =>
      if s ≠ t ∧ s ≠ v ∧ t ≠ v then spRatio adj nodes s t v else 0)).sum)).sum)

/-- `nx.Graph.degree` of a node of `temp_G`: the number of adjacent nodes
(the adjacency row, which contains the node itself when it has a
self-loop) plus one more for a self-loop. -/
def simpleDegree (adj : String → String → Bool) (nodes : List String)
    (v : String) : Nat :=
  (nodes.filter (fun u => adj v u)).length + (if adj v v then 1 else 0)

/-- Modelled from the spec: `nx.degree_centrality`, degree divided by
`n - 1` (networkx returns `1` for every node of a graph with at most one
node). -/
def degreeCent (adj : String → String → Bool) (nodes : List String)
    (v : String) : ℚ :=
  if nodes.length ≤ 1 then 1
  else (simpleDegree adj nodes v : ℚ) / ((nodes.length : ℚ) - 1)

/-- Outcome of `nx.shortest_path(temp_G, source, target)`: networkx raises
`NodeNotFound` when either endpoint is not a node of the graph, raises
`NetworkXNoPath` when both are present but disconnected, and otherwise
returns one shortest path. -/
inductive PathResult where
  | found (p : List String)
  | noPath
  | nodeNotFound
deriving DecidableEq, Repr

/-- Walk back from the target along strictly decreasing BFS distances,
producing the node list of one shortest path from `s`. -/
def buildPath (adj : String → String → Bool) (nodes : List String)
    (dists : List (String × Nat)) : Nat → String → List String
  | 0, t => [t]
  | d + 1, t =>
      match nodes.find? (fun u => adj u t && decide (lookupA u dists = some d)) with
      | some u => buildPath adj nodes dists d u ++ [t]
      | none => [t]

/-- Modelled from the spec: unweighted BFS shortest path between two nodes
of the projection, with networkx's error behaviour. -/
def shortestPath (adj : String → String → Bool) (nodes : List String)
    (s t : String) : PathResult :=
  if s ∈ nodes ∧ t ∈ nodes then
    match lookupA t (bfsDistances adj nodes s) with
    | none => .noPath
    | some d => .found (buildPath adj nodes (bfsDistances adj nodes s) d t)
  else .nodeNotFound

/-- The path-highlight loop (app.py lines 192-201): per core node a
shortest path from the focal node; `NetworkXNoPath` is caught and the core
node skipped, `NodeNotFound` propagates (`none`).  Returns the union of
path nodes and of directed path edges. -/
def collectPaths (adj : String → String → Bool) (nodes : List String)
    (focal : String) : List String → Option (List String × List (String × String))
  | [] => some ([], [])
  | c :: cs =>
      match shortestPath adj nodes focal c with
      | .nodeNotFound => none
      | .noPath => collectPaths adj nodes focal cs
      | .found p =>
          (collectPaths adj nodes focal cs).map (fun acc =>
            (p ++ acc.1, p.zip p.tail ++ acc.2))

/-! ### Assembling the cytoscape element list -/

/-- The `'data'` dict of a node element (app.py lines 166-183).
`centrality`/`betweenness` are `none` for core nodes (the literal string
`'N/A'` in the source); `nodeToCore` is `none` until the highlight pass
writes it. -/
structure NodeData where
  id : String
  label : String
  size : ℚ
  fid : String
  displayName : String
  followerCount : Nat
  followingCount : Nat
  isCore : Bool
  centrality : Option ℚ
  betweenness : Option ℚ
  color : String
  connectedCoreNodes : Nat
  nodeToCore : Option Bool
deriving DecidableEq, Repr

inductive Element where
  | node (d : NodeData)
  | edge (d : EdgeData)
deriving DecidableEq, Repr

/-- `max(betweenness.values()) if betweenness else 1` (app.py line 137). -/
def maxBetw (G : Graph) (timestamp : ℚ) (coreNodes : List String) : ℚ :=
  let active := activeNodes G timestamp coreNodes
  match active.map (betweennessCent (hasSimpleEdge G timestamp) active) with
  | [] => 1
  | v :: vs => vs.foldl max v

/-- Node-element construction (app.py lines 139-183) for an active node
`x` with attribute dict `attrs`. -/
def mkNodeData (G : Graph) (timestamp : ℚ) (coreNodes : List String)
    (x : String) (attrs : NodeAttrs) : NodeData :=
  let active := activeNodes G timestamp coreNodes
  let adj := hasSimpleEdge G timestamp
  let isCore := decide (x ∈ coreNodes)
  let connectedCore := (coreNodes.filter (fun c => adj x c)).length
  let size : ℚ :=
    if isCore then 112.5 else 45 * (1 + ((connectedCore : ℚ) - 1) * 0.25)
  let betw := betweennessCent adj active x
  let mb := maxBetw G timestamp coreNodes
  let color :=
    if isCore then "rgb(0, 255, 0)"
    else if mb > 0 then
      let ci := pyInt (255 * betw / mb)
      s!"rgb({ci}, 0, 255)"
    else "rgb(0, 0, 255)"
  { id := x,
    label := attrs.username.getD x,
    size := size,
    fid := x,
    displayName := attrs.username.getD "N/A",
    followerCount := attrs.followerCount.getD 0,
    followingCount := attrs.followingCount.getD 0,
    isCore := isCore,
    centrality := if isCore then none else some (degreeCent adj active x),
    betweenness := if isCore then none else some betw,
    color := color,
    connectedCoreNodes := connectedCore,
    nodeToCore := none }

/-- `G.nodes[node]` for every active node, in order; a missing node raises
`KeyError` (app.py line 140), modelled as `none`. -/
def resolveNodes (G : Graph) : List String → Option (List (String × NodeAttrs))
  | [] => some []
  | x :: xs =>
      match lookupA x G.nodes with
      | none => none
      | some a => (resolveNodes G xs).map (fun r => (x, a) :: r)

/-- The element list before highlighting (app.py lines 139-187): node
elements for the active nodes, then — only when the cutoff is strictly
above the global minimum timestamp — the aggregated edges. -/
def assembledElems (G : Graph) (timestamp : ℚ) (coreNodes : List String)
    (resolved : List (String × NodeAttrs)) : List Element :=
  resolved.map (fun p => Element.node (mkNodeData G timestamp coreNodes p.1 p.2)) ++
    (if minTimestamp G < timestamp then
      (markEdges (normalizeDict (buildEdgeDict G timestamp))
        (topNNodes G timestamp coreNodes) coreNodes).map (fun kv => Element.edge kv.2)
    else [])

/-- The highlight rewrite of one element (app.py lines 203-218): every
edge's `edge_to_core` and every node's `node_to_core` is recomputed from
the path unions, overriding previous flags. -/
def applyHighlight (pathNodes : List String)
    (pathEdges : List (String × String)) : Element → Element
  | .edge d =>
      let flag := decide ((d.source, d.target) ∈ pathEdges ∨
                          (d.target, d.source) ∈ pathEdges)
      .edge { d with edgeToCore := flag }
  | .node d =>
      let flag := decide (d.id ∈ pathNodes)
      .node { d with nodeToCore := some flag }

/-- App.py lines 220-225: at (or below) the minimum timestamp only the
elements whose data carries `is_core == 'true'` survive; edge elements
have no `is_core` key, so they are dropped too. -/
def finalFilter (G : Graph) (timestamp : ℚ) (els : List Element) : List Element :=
  if timestamp ≤ minTimestamp G then
    els.filter (fun el => match el with
      | .node d => d.isCore
      | .edge _ => false)
  else els

/-- `get_elements` (app.py lines 49-227).  `none` models an uncaught
Python exception: `ValueError` from `min([])` when the graph has no events
(line 116), `KeyError` from `G.nodes[node]` (line 140), or `NodeNotFound`
from `nx.shortest_path` when the tapped node is not in `temp_G`
(line 196). -/
def get_elements (G : Graph) (timestamp : ℚ) (coreNodes : List String)
    (tapNode : Option String) : Option (List Element) :=
  if G.events.isEmpty then none
  else
    match resolveNodes G (activeNodes G timestamp coreNodes) with
    | none => none
    | some resolved =>
        let els := assembledElems G timestamp coreNodes resolved
        match tapNode with
        | none => some (finalFilter G timestamp els)
        | some focal =>
            match collectPaths (hasSimpleEdge G timestamp)
                (activeNodes G timestamp coreNodes) focal coreNodes with
            | none => none
            | some pp =>
                some (finalFilter G timestamp (els.map (applyHighlight pp.1 pp.2)))

/-! ### The Dash callbacks -/

/-- Python `str.split(',')` on the character list: cut at every comma,
keeping empty pieces (so the empty string yields one empty piece). -/
def splitOnCommaAux : List Char → List Char → List (List Char)
  | [], acc => [acc.reverse]
  | c :: rest, acc =>
      if c = ',' then acc.reverse :: splitOnCommaAux rest []
      else splitOnCommaAux rest (c :: acc)

/-- Python `str.strip()`: drop leading and trailing whitespace. -/
def stripChars (l : List Char) : List Char :=
  ((l.dropWhile Char.isWhitespace).reverse.dropWhile Char.isWhitespace).reverse

/-- `[uid.strip() for uid in user_ids_input.split(',') if uid.strip()]`
(app.py lines 437 and 481), with Python's split and strip modelled on the
character list. -/
def parseCoreIds (s : String) : List String :=
  ((splitOnCommaAux s.data []).map (fun l => String.mk (stripChars l))).filter
    (fun uid => decide (uid ≠ ""))

/-- The only input guard of `build_graph` (app.py line 433):
`if n_clicks is None or not user_ids_input` — a `None` click count or a
falsy (empty) input string short-circuits to `no_update`.  Every later
failure is swallowed by the bare `except` (line 462), which also returns
`no_update`, surfacing nothing. -/
def build_graph_rejects (nClicks : Option Nat) (userIdsInput : Option String) : Bool :=
  nClicks.isNone || userIdsInput.isNone || decide (userIdsInput = some "")

/-- The payload stored in `graph-store` by a successful `build_graph`: the
globally filtered graph plus its extreme timestamps (app.py
lines 448-457). -/
structure StoredGraph where
  graph : Graph
  minT : ℚ
  maxT : ℚ
deriving DecidableEq, Repr

/-- `update_elements` (app.py lines 474-492): no stored graph yields `[]`;
otherwise the slider fraction is mapped onto the stored timestamp range
and `get_elements` is called with the core ids re-parsed from the current
input field. -/
def update_elements (selectedTimestamp : ℚ) (tapNode : Option String)
    (graphData : Option StoredGraph) (userIdsInput : String) :
    Option (List Element) :=
  match graphData with
  | none => some []
  | some gd =>
      let coreNodes := parseCoreIds userIdsInput
      let actualTs := gd.minT + selectedTimestamp / 100 * (gd.maxT - gd.minT)
      get_elements gd.graph actualTs coreNodes tapNode

/-! ### Lemmas: association lists and list utilities -/

lemma lookupA_eq_none_iff {α β : Type} [DecidableEq α] (k : α) (l : List (α × β)) :
    lookupA k l = none ↔ k ∉ l.map Prod.fst := by
  induction l with
  | nil => simp [lookupA]
  | cons p rest ih =>
      by_cases h : p.1 = k
      · simp [lookupA, h]
      · rw [show lookupA k (p :: rest) = lookupA k rest from by simp [lookupA, h]]
        simp only [List.map_cons, List.mem_cons, not_or]
        constructor
        · intro hnone; exact ⟨fun hk => h hk.symm, ih.mp hnone⟩
        · intro hmem; exact ih.mpr hmem.2

lemma lookupA_append_some {α β : Type} [DecidableEq α] {k : α}
    {l1 : List (α × β)} {v : β} (l2 : List (α × β))
    (h : lookupA k l1 = some v) :
    lookupA k (l1 ++ l2) = some v := by
  induction l1 with
  | nil => simp [lookupA] at h
  | cons p rest ih =>
      by_cases hp : p.1 = k <;> simp_all [lookupA, hp]

lemma lookupA_append_none {α β : Type} [DecidableEq α] {k : α}
    {l1 : List (α × β)} (l2 : List (α × β)) (h : lookupA k l1 = none) :
    lookupA k (l1 ++ l2) = lookupA k l2 := by
  induction l1 with
  | nil => simp
  | cons p rest ih =>
      by_cases hp : p.1 = k <;> simp_all [lookupA, hp]

lemma lookupA_map_update (k key : String × String) (e : Event)
    (l : List ((String × String) × EdgeData)) :
    lookupA k (l.map (fun kv =>
        if kv.1 = key then (kv.1, bumpEdgeData kv.2 e) else kv)) =
      if k = key then (lookupA key l).map (fun d => bumpEdgeData d e)
      else lookupA k l := by
  induction l with
  | nil => by_cases h : k = key <;> simp [lookupA, h]
  | cons p rest ih =>
      by_cases hp : p.1 = key
      · by_cases hk : k = key
        · have h1 : p.1 = k := hp.trans hk.symm
          simp [lookupA, hp, hk, h1]
        · have h1 : ¬ p.1 = k := fun h2 => hk (h2.symm.trans hp)
          have h2 : ¬ key = k := fun h2 => hk h2.symm
          simp [lookupA, hp, hk, h1, h2, ih]
      · by_cases hpk : p.1 = k
        · have h1 : ¬ k = key := fun h2 => hp (hpk.trans h2)
          simp [lookupA, hp, hpk, h1]
        · simp [lookupA, hp, hpk, ih]

lemma lookupA_map_pair {α β : Type} [DecidableEq α] (x : α) (f : α → β)
    (l : List α) :
    lookupA x (l.map (fun n => (n, f n))) =
      if x ∈ l then some (f x) else none := by
  induction l with
  | nil => simp [lookupA]
  | cons a rest ih =>
      by_cases h : a = x
      · subst h; simp [lookupA]
      · simp [lookupA, h, ih, Ne.symm h]

lemma length_filter_mono {α : Type} (l : List α) (p q : α → Bool)
    (h : ∀ a ∈ l, p a = true → q a = true) :
    (l.filter p).length ≤ (l.filter q).length := by
  induction l with
  | nil => simp
  | cons a rest ih =>
      have ih' := ih (fun x hx => h x (List.mem_cons_of_mem a hx))
      by_cases hp : p a = true
      · have hq := h a (List.mem_cons_self a rest) hp
        simp [List.filter_cons, hp, hq]; omega
      · have hp' : p a = false := by revert hp; cases p a <;> simp
        by_cases hq : q a = true
        · simp [List.filter_cons, hp', hq]; omega
        · have hq' : q a = false := by revert hq; cases q a <;> simp
          simp [List.filter_cons, hp', hq']; omega

lemma length_filter_disjoint {α : Type} (l : List α) (p q : α → Bool)
    (h : ∀ a ∈ l, ¬(p a = true ∧ q a = true)) :
    (l.filter p).length + (l.filter q).length =
      (l.filter (fun a => p a || q a)).length := by
  induction l with
  | nil => simp
  | cons a rest ih =>
      have ih' := ih (fun x hx => h x (List.mem_cons_of_mem a hx))
      have ha := h a (List.mem_cons_self a rest)
      cases hp : p a <;> cases hq : q a <;>
        simp_all [List.filter_cons, hp, hq] <;> omega

lemma foldl_min_le_init {α : Type} [LinearOrder α] (l : List α) (a : α) :
    l.foldl min a ≤ a := by
  induction l generalizing a with
  | nil => simp
  | cons x rest ih =>
      calc (x :: rest).foldl min a = rest.foldl min (min a x) := rfl
        _ ≤ min a x := ih (min a x)
        _ ≤ a := min_le_left a x

lemma foldl_min_le_mem {α : Type} [LinearOrder α] (l : List α) (a x : α)
    (hx : x ∈ l) : l.foldl min a ≤ x := by
  induction l generalizing a with
  | nil => simp at hx
  | cons y rest ih =>
      rcases List.mem_cons.mp hx with h | h
      · subst h
        calc (x :: rest).foldl min a = rest.foldl min (min a x) := rfl
          _ ≤ min a x := foldl_min_le_init rest (min a x)
          _ ≤ x := min_le_right a x
      · exact ih (min a y) h

lemma foldl_min_eq_init_or_mem {α : Type} [LinearOrder α] (l : List α) (a : α) :
    l.foldl min a = a ∨ l.foldl min a ∈ l := by
  induction l generalizing a with
  | nil => left; rfl
  | cons x rest ih =>
      have hfold : (x :: rest).foldl min a = rest.foldl min (min a x) := rfl
      rcases ih (min a x) with h | h
      · rcases min_cases a x with ⟨hm, _⟩ | ⟨hm, _⟩
        · left; rw [hfold, h, hm]
        · right; rw [hfold, h, hm]; exact List.mem_cons_self x rest
      · right; rw [hfold]; exact List.mem_cons_of_mem x h

lemma le_foldl_max_init {α : Type} [LinearOrder α] (l : List α) (a : α) :
    a ≤ l.foldl max a := by
  induction l generalizing a with
  | nil => simp
  | cons x rest ih =>
      calc a ≤ max a x := le_max_left a x
        _ ≤ rest.foldl max (max a x) := ih (max a x)
        _ = (x :: rest).foldl max a := rfl

lemma le_foldl_max_mem {α : Type} [LinearOrder α] (l : List α) (a x : α)
    (hx : x ∈ l) : x ≤ l.foldl max a := by
  induction l generalizing a with
  | nil => simp at hx
  | cons y rest ih =>
      rcases List.mem_cons.mp hx with h | h
      · subst h
        calc x ≤ max a x := le_max_right a x
          _ ≤ rest.foldl max (max a x) := le_foldl_max_init rest (max a x)
          _ = (x :: rest).foldl max a := rfl
      · exact ih (max a y) h

/-! ### Lemmas: timestamps -/

lemma minTimestamp_le {G : Graph} {e : Event} (he : e ∈ G.events) :
    minTimestamp G ≤ e.timestamp := by
  have hmem : e.timestamp ∈ G.events.map Event.timestamp :=
    List.mem_map_of_mem Event.timestamp he
  unfold minTimestamp
  cases hE : G.events.map Event.timestamp with
  | nil => rw [hE] at hmem; simp at hmem
  | cons t ts =>
      rw [hE] at hmem
      rcases List.mem_cons.mp hmem with h | h
      · rw [← h]; exact foldl_min_le_init ts e.timestamp
      · exact foldl_min_le_mem ts t e.timestamp h

lemma le_maxTimestamp {G : Graph} {e : Event} (he : e ∈ G.events) :
    e.timestamp ≤ maxTimestamp G := by
  have hmem : e.timestamp ∈ G.events.map Event.timestamp :=
    List.mem_map_of_mem Event.timestamp he
  unfold maxTimestamp
  cases hE : G.events.map Event.timestamp with
  | nil => rw [hE] at hmem; simp at hmem
  | cons t ts =>
      rw [hE] at hmem
      rcases List.mem_cons.mp hmem with h | h
      · rw [← h]; exact le_foldl_max_init ts e.timestamp
      · exact le_foldl_max_mem ts t e.timestamp h

lemma exists_minTimestamp_event {G : Graph} (h : G.events ≠ []) :
    ∃ e ∈ G.events, e.timestamp = minTimestamp G := by
  unfold minTimestamp
  cases hE : G.events.map Event.timestamp with
  | nil => exact absurd (List.map_eq_nil_iff.mp hE) h
  | cons t ts =>
      have : ts.foldl min t = t ∨ ts.foldl min t ∈ ts :=
        foldl_min_eq_init_or_mem ts t
      have hmem : ts.foldl min t ∈ G.events.map Event.timestamp := by
        rw [hE]
        rcases this with h' | h'
        · rw [h']; exact List.mem_cons_self t ts
        · exact List.mem_cons_of_mem t h'
      rcases List.mem_map.mp hmem with ⟨e, he, het⟩
      exact ⟨e, he, het⟩

lemma minTimestamp_le_maxTimestamp {G : Graph} (h : G.events ≠ []) :
    minTimestamp G ≤ maxTimestamp G := by
  rcases exists_minTimestamp_event h with ⟨e, he, het⟩
  rw [← het]; exact le_maxTimestamp he

/-! ### Lemmas: active node set -/

lemma mem_activeNodes {G : Graph} {ts : ℚ} {core : List String} {x : String} :
    x ∈ activeNodes G ts core ↔
      x ∈ core ∨ ∃ e ∈ qualifyingEvents G ts, x = e.source ∨ x = e.target := by
  unfold activeNodes
  rw [List.mem_dedup, List.mem_append, List.mem_flatMap]
  constructor
  · rintro (h | ⟨e, he, hx⟩)
    · exact Or.inl h
    · refine Or.inr ⟨e, he, ?_⟩
      rcases List.mem_cons.mp hx with h' | h'
      · exact Or.inl h'
      · simp at h'; exact Or.inr h'
  · rintro (h | ⟨e, he, hx⟩)
    · exact Or.inl h
    · refine Or.inr ⟨e, he, ?_⟩
      rcases hx with h' | h' <;> simp [h']

lemma core_subset_activeNodes {G : Graph} {ts : ℚ} {core : List String}
    {x : String} (hx : x ∈ core) : x ∈ activeNodes G ts core :=
  mem_activeNodes.mpr (Or.inl hx)

lemma two_le_length_of_two_mem {α : Type} {l : List α} {a b : α}
    (ha : a ∈ l) (hb : b ∈ l) (hab : a ≠ b) : 2 ≤ l.length := by
  match l with
  | [] => simp at ha
  | [x] =>
      simp at ha hb
      exact absurd (ha.trans hb.symm) hab
  | x :: y :: tl => simp only [List.length_cons]; omega

/-! ### Lemmas: the aggregated edge dictionary -/

/-- Does event `e` produce an increment of the aggregated edge with
canonical key `k`?  (Not a self-loop, and `k` is its canonical key.) -/
def contrib (k : String × String) (e : Event) : Bool :=
  decide (e.source ≠ e.target) && decide (edgeKey e.source e.target = k)

/-- The aggregated weight stored under key `k` (`0` when absent). -/
def dictWeight (dict : List ((String × String) × EdgeData))
    (k : String × String) : Nat :=
  match lookupA k dict with
  | some d => d.weight
  | none => 0

lemma addEvent_eq_insert {dict : List ((String × String) × EdgeData)}
    {e : Event} (hse : ¬ e.source = e.target)
    (hk : lookupA (edgeKey e.source e.target) dict = none) :
    addEvent dict e = dict ++ [(edgeKey e.source e.target, initEdgeData e)] := by
  simp [addEvent, hse, hk]

lemma addEvent_eq_update {dict : List ((String × String) × EdgeData)}
    {e : Event} {d : EdgeData} (hse : ¬ e.source = e.target)
    (hk : lookupA (edgeKey e.source e.target) dict = some d) :
    addEvent dict e = dict.map (fun kv =>
      if kv.1 = edgeKey e.source e.target then
        (kv.1, bumpEdgeData kv.2 e) else kv) := by
  simp [addEvent, hse, hk]

lemma contrib_self_key {e : Event} {k : String × String}
    (hse : ¬ e.source = e.target) (hkk : k = edgeKey e.source e.target) :
    contrib k e = true := by
  simp [contrib, hse, hkk]

lemma contrib_other_key {e : Event} {k : String × String}
    (hkk : ¬ k = edgeKey e.source e.target) : contrib k e = false := by
  by_cases hse : e.source = e.target
  · simp [contrib, hse]
  · simp [contrib, hse]
    exact fun h => hkk h.symm

lemma dictWeight_addEvent (dict : List ((String × String) × EdgeData))
    (e : Event) (k : String × String) :
    dictWeight (addEvent dict e) k =
      dictWeight dict k + (if contrib k e then 1 else 0) := by
  by_cases hse : e.source = e.target
  · simp [addEvent, hse, contrib]
  · cases hk : lookupA (edgeKey e.source e.target) dict with
    | none =>
        rw [addEvent_eq_insert hse hk]
        by_cases hkk : k = edgeKey e.source e.target
        · have h2 : lookupA k (dict ++ [(edgeKey e.source e.target,
              initEdgeData e)]) = some (initEdgeData e) := by
            rw [hkk, lookupA_append_none _ hk]; simp [lookupA]
          have h1 : lookupA k dict = none := by rw [hkk]; exact hk
          unfold dictWeight
          rw [h2, h1, contrib_self_key hse hkk]
          simp [initEdgeData]
        · rw [contrib_other_key hkk]
          cases hd : lookupA k dict with
          | none =>
              have h2 : lookupA k (dict ++ [(edgeKey e.source e.target,
                  initEdgeData e)]) = none := by
                rw [lookupA_append_none _ hd]
                simp [lookupA]; exact fun h => hkk h.symm
              unfold dictWeight
              rw [h2, hd]; simp
          | some d =>
              have h2 := lookupA_append_some
                [(edgeKey e.source e.target, initEdgeData e)] hd
              unfold dictWeight
              rw [h2, hd]; simp
    | some d =>
        rw [addEvent_eq_update hse hk]
        by_cases hkk : k = edgeKey e.source e.target
        · unfold dictWeight
          rw [lookupA_map_update, if_pos hkk, hk, contrib_self_key hse hkk]
          have h1 : lookupA k dict = some d := by rw [hkk]; exact hk
          rw [h1]
          simp [bumpEdgeData]
        · unfold dictWeight
          rw [lookupA_map_update, if_neg hkk, contrib_other_key hkk]
          simp

lemma isSome_lookupA_addEvent (dict : List ((String × String) × EdgeData))
    (e : Event) (k : String × String) :
    (lookupA k (addEvent dict e)).isSome =
      ((lookupA k dict).isSome || contrib k e) := by
  by_cases hse : e.source = e.target
  · simp [addEvent, hse, contrib]
  · cases hk : lookupA (edgeKey e.source e.target) dict with
    | none =>
        rw [addEvent_eq_insert hse hk]
        by_cases hkk : k = edgeKey e.source e.target
        · have h1 : lookupA k dict = none := by rw [hkk]; exact hk
          rw [lookupA_append_none _ h1, h1, contrib_self_key hse hkk]
          rw [hkk]
          simp [lookupA]
        · rw [contrib_other_key hkk]
          cases hd : lookupA k dict with
          | none =>
              rw [lookupA_append_none _ hd]
              simp [lookupA]; exact fun h => hkk h.symm
          | some d =>
              rw [lookupA_append_some
                [(edgeKey e.source e.target, initEdgeData e)] hd]
              simp
    | some d =>
        rw [addEvent_eq_update hse hk]
        rw [lookupA_map_update]
        by_cases hkk : k = edgeKey e.source e.target
        · have h1 : lookupA k dict = some d := by rw [hkk]; exact hk
          rw [if_pos hkk, hk, h1, contrib_self_key hse hkk]
          simp
        · rw [if_neg hkk, contrib_other_key hkk]
          simp

lemma dictWeight_foldl (evs : List Event) :
    ∀ (dict : List ((String × String) × EdgeData)) (k : String × String),
      dictWeight (evs.foldl addEvent dict) k =
        dictWeight dict k + (evs.filter (contrib k)).length := by
  induction evs with
  | nil => intro dict k; simp
  | cons e rest ih =>
      intro dict k
      have h1 : (e :: rest).foldl addEvent dict =
          rest.foldl addEvent (addEvent dict e) := rfl
      rw [h1, ih, dictWeight_addEvent]
      by_cases hc : contrib k e
      · simp [List.filter_cons, hc]; omega
      · simp [List.filter_cons, hc]

lemma isSome_foldl (evs : List Event) :
    ∀ (dict : List ((String × String) × EdgeData)) (k : String × String),
      (lookupA k (evs.foldl addEvent dict)).isSome =
        ((lookupA k dict).isSome || evs.any (contrib k)) := by
  induction evs with
  | nil => intro dict k; simp
  | cons e rest ih =>
      intro dict k
      have h1 : (e :: rest).foldl addEvent dict =
          rest.foldl addEvent (addEvent dict e) := rfl
      rw [h1, ih, isSome_lookupA_addEvent]
      by_cases hc : contrib k e <;> simp [hc]

lemma buildEdgeDict_weight (G : Graph) (ts : ℚ) (k : String × String) :
    dictWeight (buildEdgeDict G ts) k =
      ((qualifyingEvents G ts).filter (contrib k)).length := by
  unfold buildEdgeDict
  rw [dictWeight_foldl]
  simp [dictWeight, lookupA]

lemma buildEdgeDict_isSome (G : Graph) (ts : ℚ) (k : String × String) :
    (lookupA k (buildEdgeDict G ts)).isSome =
      (qualifyingEvents G ts).any (contrib k) := by
  unfold buildEdgeDict
  rw [isSome_foldl]
  simp [lookupA]

/-! ### Lemmas: the canonical key -/

lemma string_data_inj {s t : String} (h : s.data = t.data) : s = t := by
  cases s; cases t
  exact congrArg String.mk h

lemma edgeKey_comm (s t : String) : edgeKey s t = edgeKey t s := by
  unfold edgeKey
  by_cases h1 : s.data ≤ t.data <;> by_cases h2 : t.data ≤ s.data
  · simp [h1, h2, string_data_inj (le_antisymm h1 h2)]
  · simp [h1, h2]
  · simp [h1, h2]
  · exact absurd ((le_total s.data t.data).resolve_left h1) h2

lemma edgeKey_inj {s t a b : String} (h : edgeKey s t = edgeKey a b) :
    (s = a ∧ t = b) ∨ (s = b ∧ t = a) := by
  unfold edgeKey at h
  by_cases h1 : s.data ≤ t.data <;> by_cases h2 : a.data ≤ b.data <;>
    simp [h1, h2, Prod.ext_iff] at h
  · exact Or.inl h
  · exact Or.inr h
  · exact Or.inr ⟨h.2, h.1⟩
  · exact Or.inl ⟨h.2, h.1⟩

lemma edgeKey_fst_ne_snd {s t : String} (h : s ≠ t) :
    (edgeKey s t).1 ≠ (edgeKey s t).2 := by
  unfold edgeKey
  by_cases h1 : s.data ≤ t.data <;> simp [h1]
  · exact h
  · exact fun h2 => h h2.symm

lemma contrib_edgeKey_iff {a b : String} (hab : a ≠ b) (e : Event) :
    contrib (edgeKey a b) e = true ↔
      ((e.source = a ∧ e.target = b) ∨ (e.source = b ∧ e.target = a)) := by
  constructor
  · intro h
    simp [contrib] at h
    exact edgeKey_inj h.2
  · rintro (⟨h1, h2⟩ | ⟨h1, h2⟩)
    · have hst : e.source ≠ e.target := by rw [h1, h2]; exact hab
      simp [contrib, hst, h1, h2]
      exact hab
    · have hst : e.source ≠ e.target := by
        rw [h1, h2]; exact fun h => hab h.symm
      simp [contrib, hst, h1, h2, edgeKey_comm b a]
      exact fun h => hab h.symm

lemma lookupA_selfKey_buildEdgeDict (G : Graph) (ts : ℚ) (x : String) :
    lookupA (x, x) (buildEdgeDict G ts) = none := by
  have h : (qualifyingEvents G ts).any (contrib (x, x)) = false := by
    rw [List.any_eq_false]
    intro e _
    by_cases hse : e.source = e.target
    · simp [contrib, hse]
    · intro hc
      simp [contrib, hse] at hc
      have := edgeKey_fst_ne_snd hse
      rw [hc] at this
      exact this rfl
  have h2 := buildEdgeDict_isSome G ts (x, x)
  rw [h] at h2
  exact Option.not_isSome_iff_eq_none.mp (by rw [h2]; simp)

/-! ### Lemmas: node resolution (`G.nodes[...]`) -/

lemma resolveNodes_eq_none {G : Graph} {l : List String} {x : String}
    (hx : x ∈ l) (h : lookupA x G.nodes = none) :
    resolveNodes G l = none := by
  induction l with
  | nil => simp at hx
  | cons y ys ih =>
      rcases List.mem_cons.mp hx with h' | h'
      · subst h'
        unfold resolveNodes
        rw [h]
      · unfold resolveNodes
        cases hy : lookupA y G.nodes with
        | none => rfl
        | some a => rw [ih h']; rfl

lemma resolveNodes_isSome {G : Graph} {l : List String}
    (h : ∀ x ∈ l, x ∈ G.nodeIds) : (resolveNodes G l).isSome := by
  induction l with
  | nil => simp [resolveNodes]
  | cons y ys ih =>
      unfold resolveNodes
      cases hy : lookupA y G.nodes with
      | none =>
          exfalso
          exact (lookupA_eq_none_iff y G.nodes).mp hy
            (h y (List.mem_cons_self y ys))
      | some a =>
          have := ih (fun x hx => h x (List.mem_cons_of_mem y hx))
          cases hr : resolveNodes G ys with
          | none => rw [hr] at this; simp at this
          | some r => simp

lemma resolveNodes_some_facts {G : Graph} :
    ∀ {l : List String} {r : List (String × NodeAttrs)},
      resolveNodes G l = some r →
        r.map Prod.fst = l ∧ ∀ p ∈ r, lookupA p.1 G.nodes = some p.2 := by
  intro l
  induction l with
  | nil =>
      intro r h
      simp [resolveNodes] at h
      subst h
      simp
  | cons y ys ih =>
      intro r h
      unfold resolveNodes at h
      cases hy : lookupA y G.nodes with
      | none => rw [hy] at h; simp at h
      | some a =>
          rw [hy] at h
          cases hr : resolveNodes G ys with
          | none => rw [hr] at h; simp at h
          | some r' =>
              rw [hr] at h
              simp at h
              subst h
              rcases ih hr with ⟨h1, h2⟩
              constructor
              · simp [h1]
              · intro p hp
                rcases List.mem_cons.mp hp with h' | h'
                · subst h'; exact hy
                · exact h2 p h'

/-! ### Lemmas: normalization and the highlight count -/

lemma one_le_normalize {x m M : ℚ} (hm : m ≤ x) (hmM : m ≤ M) :
    1 ≤ normalize_value x m M 1 10 := by
  unfold normalize_value
  by_cases h : M = m
  · simp [h]
  · have hlt : m < M := lt_of_le_of_ne hmM (Ne.symm h)
    rw [if_neg h]
    have h1 : 0 ≤ (x - m) / (M - m) :=
      div_nonneg (by linarith) (by linarith)
    have h2 : (0 : ℚ) ≤ (x - m) / (M - m) * (10 - 1) :=
      mul_nonneg h1 (by norm_num)
    linarith

lemma pyInt_of_nonneg {q : ℚ} (h : 0 ≤ q) : pyInt q = ⌊q⌋ := by
  unfold pyInt
  rw [if_pos h]

/-! ### Lemmas: BFS never reaches an isolated node -/

lemma bfsAux_avoid {adj : String → String → Bool} {nodes : List String}
    {v : String} (hadj : ∀ u, adj u v = false) :
    ∀ (fuel : Nat) (visited : List (String × Nat)) (frontier : List String)
      (d : Nat), v ∉ visited.map Prod.fst →
        v ∉ (bfsAux adj nodes fuel visited frontier d).map Prod.fst := by
  intro fuel
  induction fuel with
  | zero => intro visited frontier d h; exact h
  | succ fuel ih =>
      intro visited frontier d h
      unfold bfsAux
      by_cases hnext : (bfsStep adj nodes (visited.map Prod.fst) frontier).isEmpty
      · rw [if_pos hnext]; exact h
      · rw [if_neg hnext]
        apply ih
        rw [List.map_append, List.map_map]
        intro hmem
        rcases List.mem_append.mp hmem with h' | h'
        · exact h h'
        · rcases List.mem_map.mp h' with ⟨u, hu, hu2⟩
          have : u = v := hu2
          subst this
          have := List.of_mem_filter hu
          simp at this
          rcases this with ⟨_, w, _, hw⟩
          rw [hadj w] at hw
          exact Bool.false_ne_true hw

lemma bfsDistances_avoid {adj : String → String → Bool} {nodes : List String}
    {v s : String} (hadj : ∀ u, adj u v = false) (hvs : v ≠ s) :
    lookupA v (bfsDistances adj nodes s) = none := by
  rw [lookupA_eq_none_iff]
  apply bfsAux_avoid hadj
  simp [hvs]

lemma betweennessCent_isolated {adj : String → String → Bool}
    {nodes : List String} {v : String} (hadj : ∀ u, adj u v = false) :
    betweennessCent adj nodes v = 0 := by
  unfold betweennessCent
  have hz : (nodes.map (fun s =>
      (nodes.map (fun t =>
        if s ≠ t ∧ s ≠ v ∧ t ≠ v then spRatio adj nodes s t v else 0)).sum)).sum
      = 0 := by
    apply List.sum_eq_zero
    intro x hx
    rcases List.mem_map.mp hx with ⟨s, _, rfl⟩
    apply List.sum_eq_zero
    intro y hy
    rcases List.mem_map.mp hy with ⟨t, _, rfl⟩
    by_cases hc : s ≠ t ∧ s ≠ v ∧ t ≠ v
    · rw [if_pos hc]
      unfold spRatio
      rw [bfsDistances_avoid hadj (Ne.symm hc.2.1)]
    · rw [if_neg hc]
  rw [hz, mul_zero]

lemma hasSimpleEdge_symm {G : Graph} {ts : ℚ} (u v : String) :
    hasSimpleEdge G ts u v = hasSimpleEdge G ts v u := by
  unfold hasSimpleEdge
  cases h1 : (qualifyingEvents G ts).any (fun e =>
      decide ((e.source = u ∧ e.target = v) ∨ (e.source = v ∧ e.target = u)))
  · rw [eq_comm, List.any_eq_false]
    rw [List.any_eq_false] at h1
    intro e he
    have := h1 e he
    simp at this ⊢
    tauto
  · rw [eq_comm, List.any_eq_true]
    rw [List.any_eq_true] at h1
    rcases h1 with ⟨e, he, hp⟩
    refine ⟨e, he, ?_⟩
    simp at hp ⊢
    tauto

/-! ### Concrete example graphs -/

def attrs0 : NodeAttrs := ⟨none, none, none⟩

/-- Connection-Ranker example: node `X` has three events with core node
`A` (two outgoing, one incoming) and none with `B`. -/
def exG1 : Graph :=
  { nodes := [("A", attrs0), ("X", attrs0), ("B", attrs0)],
    events := [⟨"X", "A", 1, some "LIKE"⟩, ⟨"X", "A", 2, some "LIKE"⟩,
               ⟨"A", "X", 3, some "REPLY"⟩] }

/-- The spec's 5-node example: core `A`; events (B,A,t1), (C,A,t2),
(C,B,t3), (D,C,t4) with `t_i = i`, all of one type; `E` never interacts. -/
def exG5 : Graph :=
  { nodes := [("A", attrs0), ("B", attrs0), ("C", attrs0), ("D", attrs0),
              ("E", attrs0)],
    events := [⟨"B", "A", 1, some "X"⟩, ⟨"C", "A", 2, some "X"⟩,
               ⟨"C", "B", 3, some "X"⟩, ⟨"D", "C", 4, some "X"⟩] }

/-! ### C1: connection strength at the two scopes -/

/-- The spec's event count between `u` and `v`: all events in both
directions. -/
def eventsBetween (evs : List Event) (u v : String) : Nat :=
  (evs.filter (fun e => decide ((e.source = u ∧ e.target = v) ∨
    (e.source = v ∧ e.target = u)))).length

/-- The spec's ConnectionStrength formula: minimum over all core nodes of
the total event count between the node and the core node in both
directions (`0` on an empty core set). -/
def specConnectionStrength (evs : List Event) (core : List String)
    (node : String) : Nat :=
  minStrength (core.map (fun c => eventsBetween evs node c))

lemma any_eq_true_iff_filter_pos {α : Type} (l : List α) (p : α → Bool) :
    l.any p = true ↔ 0 < (l.filter p).length := by
  rw [List.any_eq_true]
  constructor
  · rintro ⟨a, ha, hpa⟩
    have : a ∈ l.filter p := List.mem_filter.mpr ⟨ha, hpa⟩
    exact List.length_pos.mpr (List.ne_nil_of_mem this)
  · intro h
    rcases List.exists_mem_of_length_pos h with ⟨a, ha⟩
    have := List.mem_filter.mp ha
    exact ⟨a, this.1, this.2⟩

lemma countEdges_add_eq_eventsBetween {G : Graph} {u v : String}
    (huv : u ≠ v) :
    countEdges G u v + countEdges G v u = eventsBetween G.events u v := by
  unfold countEdges eventsBetween
  have hor : (fun e : Event => decide ((e.source = u ∧ e.target = v) ∨
      (e.source = v ∧ e.target = u))) = (fun e : Event =>
        decide (e.source = u ∧ e.target = v) ||
        decide (e.source = v ∧ e.target = u)) := by
    funext e; exact Bool.decide_or _ _
  rw [hor]
  apply length_filter_disjoint
  intro e _
  rintro ⟨h1, h2⟩
  simp at h1 h2
  exact huv (h1.1.symm.trans h2.1)

/-- C1 counterexample: at the local scope (cutoff 10, core `{A}`), the
connection strength of `X` — which has three qualifying events with `A` —
is not the minimum over core nodes of the total bidirectional event count
(which would be 3): the source computes it on the snapshot's simple
projection, yielding 1. -/
theorem C1_counterexample :
    lookupA "X" (localConnectionStrength exG1 10 ["A"]) ≠
      some (specConnectionStrength (qualifyingEvents exG1 10) ["A"] "X") := by
  decide

/-- C1 (amended): the global-scope connection strength of a non-core node
equals the minimum over core nodes of the total bidirectional event count
(hence 0 as soon as one core node shares no events with it), but the
local-scope strength equals the minimum over core nodes of a 0/1
indicator of having any qualifying event with that core node (the local
computation runs on the snapshot's simple projection, collapsing
multiplicities).  In the example, X's global strength is 3 with core
`{A}` and 0 with core `{A, B}`, while its local strength is 1. -/
theorem C1_connection_strength :
    (∀ (G : Graph) (core : List String) (node : String),
      node ∈ G.nodeIds → node ∉ core →
        lookupA node (calculate_connection_strength G core) =
          some (specConnectionStrength G.events core node)) ∧
    (∀ (G : Graph) (ts : ℚ) (core : List String) (node : String),
      node ∈ activeNodes G ts core → node ∉ core →
        lookupA node (localConnectionStrength G ts core) =
          some (minStrength (core.map (fun c =>
            if 0 < eventsBetween (qualifyingEvents G ts) node c then 1 else 0)))) ∧
    lookupA "X" (calculate_connection_strength exG1 ["A"]) = some 3 ∧
    lookupA "X" (calculate_connection_strength exG1 ["A", "B"]) = some 0 ∧
    lookupA "X" (localConnectionStrength exG1 10 ["A"]) = some 1 := by
  refine ⟨?_, ?_, by decide, by decide, by decide⟩
  · intro G core node hmem hncore
    unfold calculate_connection_strength
    rw [lookupA_map_pair]
    rw [if_pos (List.mem_filter.mpr ⟨hmem, by simpa using hncore⟩)]
    unfold specConnectionStrength
    refine congrArg some (congrArg minStrength ?_)
    apply List.map_congr_left
    intro c hc
    exact countEdges_add_eq_eventsBetween (fun h => hncore (h ▸ hc))
  · intro G ts core node hmem hncore
    unfold localConnectionStrength
    rw [lookupA_map_pair]
    rw [if_pos (List.mem_filter.mpr ⟨hmem, by simpa using hncore⟩)]
    refine congrArg some (congrArg minStrength ?_)
    apply List.map_congr_left
    intro c _
    unfold hasSimpleEdge eventsBetween
    by_cases h : (qualifyingEvents G ts).any (fun e =>
        decide ((e.source = node ∧ e.target = c) ∨
          (e.source = c ∧ e.target = node))) = true
    · rw [if_pos h, if_pos ((any_eq_true_iff_filter_pos _ _).mp h)]
    · rw [if_neg h, if_neg (fun hp =>
        h ((any_eq_true_iff_filter_pos _ _).mpr hp))]

/-- C1 witness: the global-scope half of `C1_connection_strength`
evaluated on the example graph. -/
theorem C1_witness :
    lookupA "X" (calculate_connection_strength exG1 ["A"]) =
      some (specConnectionStrength exG1.events ["A"] "X") :=
  C1_connection_strength.1 exG1 ["A"] "X" (by decide) (by decide)

/-! ### C2: the snapshot at the minimum timestamp -/

lemma isEmpty_eq_false_of_ne_nil {α : Type} {l : List α} (h : l ≠ []) :
    l.isEmpty = false := by
  cases l with
  | nil => exact absurd rfl h
  | cons a l => rfl

lemma mkNodeData_id (G : Graph) (ts : ℚ) (core : List String) (x : String)
    (attrs : NodeAttrs) : (mkNodeData G ts core x attrs).id = x := rfl

lemma mkNodeData_isCore (G : Graph) (ts : ℚ) (core : List String)
    (x : String) (attrs : NodeAttrs) :
    (mkNodeData G ts core x attrs).isCore = decide (x ∈ core) := rfl

lemma mkNodeData_centrality (G : Graph) (ts : ℚ) (core : List String)
    (x : String) (attrs : NodeAttrs) :
    (mkNodeData G ts core x attrs).centrality =
      if decide (x ∈ core) then none
      else some (degreeCent (hasSimpleEdge G ts) (activeNodes G ts core) x) := rfl

lemma mkNodeData_betweenness (G : Graph) (ts : ℚ) (core : List String)
    (x : String) (attrs : NodeAttrs) :
    (mkNodeData G ts core x attrs).betweenness =
      if decide (x ∈ core) then none
      else some (betweennessCent (hasSimpleEdge G ts) (activeNodes G ts core) x) := rfl

lemma activeNodes_subset_nodeIds {G : Graph} {ts : ℚ} {core : List String}
    (hcore : ∀ c ∈ core, c ∈ G.nodeIds) (hwf : G.wf) :
    ∀ x ∈ activeNodes G ts core, x ∈ G.nodeIds := by
  intro x hx
  rcases mem_activeNodes.mp hx with h | ⟨e, he, hxe⟩
  · exact hcore x h
  · have he' : e ∈ G.events := (List.mem_filter.mp he).1
    rcases hxe with h | h
    · exact h ▸ (hwf e he').1
    · exact h ▸ (hwf e he').2

/-- C2: for every graph with at least one event and every core set whose
ids are nodes of the graph, the snapshot built at the global minimum
timestamp holds exactly one node element per core node and nothing else
(in particular no aggregated edge elements), even though the events at
the minimum timestamp qualify for selection. -/
theorem C2_min_cutoff_snapshot (G : Graph) (core : List String)
    (hev : G.events ≠ []) (hcore : ∀ c ∈ core, c ∈ G.nodeIds) (hwf : G.wf) :
    ∃ els, get_elements G (minTimestamp G) core none = some els ∧
      (∀ x : String,
        (∃ d : NodeData, Element.node d ∈ els ∧ d.id = x) ↔ x ∈ core) ∧
      (∀ el ∈ els, ∃ d : NodeData, el = Element.node d ∧ d.isCore = true) ∧
      qualifyingEvents G (minTimestamp G) ≠ [] := by
  have hemp := isEmpty_eq_false_of_ne_nil hev
  have hsub : ∀ x ∈ activeNodes G (minTimestamp G) core, x ∈ G.nodeIds :=
    activeNodes_subset_nodeIds hcore hwf
  obtain ⟨r, hr⟩ := Option.isSome_iff_exists.mp (resolveNodes_isSome hsub)
  obtain ⟨hfst, hlk⟩ := resolveNodes_some_facts hr
  have hget : get_elements G (minTimestamp G) core none =
      some (finalFilter G (minTimestamp G)
        (assembledElems G (minTimestamp G) core r)) := by
    simp [get_elements, hemp, hr]
  have hfil : finalFilter G (minTimestamp G)
      (assembledElems G (minTimestamp G) core r) =
      (r.map (fun p => Element.node
        (mkNodeData G (minTimestamp G) core p.1 p.2))).filter
        (fun el => match el with | .node d => d.isCore | .edge _ => false) := by
    unfold finalFilter assembledElems
    rw [if_neg (lt_irrefl _), if_pos (le_refl _), List.append_nil]
  refine ⟨_, hget, ?_, ?_, ?_⟩
  · intro x
    constructor
    · rintro ⟨d, hd, hid⟩
      rw [hfil] at hd
      have hmem := List.mem_filter.mp hd
      rcases List.mem_map.mp hmem.1 with ⟨p, hp, hpe⟩
      have hdm : mkNodeData G (minTimestamp G) core p.1 p.2 = d := by
        injection hpe
      have hic : d.isCore = true := hmem.2
      rw [← hdm, mkNodeData_isCore] at hic
      have hpcore : p.1 ∈ core := of_decide_eq_true hic
      rw [← hid, ← hdm, mkNodeData_id]
      exact hpcore
    · intro hx
      have hxa : x ∈ activeNodes G (minTimestamp G) core :=
        core_subset_activeNodes hx
      rw [← hfst] at hxa
      rcases List.mem_map.mp hxa with ⟨p, hp, hpx⟩
      refine ⟨mkNodeData G (minTimestamp G) core p.1 p.2, ?_, ?_⟩
      · rw [hfil]
        apply List.mem_filter.mpr
        refine ⟨List.mem_map_of_mem _ hp, ?_⟩
        show (mkNodeData G (minTimestamp G) core p.1 p.2).isCore = true
        rw [mkNodeData_isCore, hpx]
        exact decide_eq_true hx
      · rw [mkNodeData_id]; exact hpx
  · intro el hel
    rw [hfil] at hel
    have hmem := List.mem_filter.mp hel
    rcases List.mem_map.mp hmem.1 with ⟨p, hp, hpe⟩
    exact ⟨mkNodeData G (minTimestamp G) core p.1 p.2, hpe.symm, by
      have : el = Element.node (mkNodeData G (minTimestamp G) core p.1 p.2) :=
        hpe.symm
      rw [this] at hmem
      exact hmem.2⟩
  · rcases exists_minTimestamp_event hev with ⟨e, he, het⟩
    apply List.ne_nil_of_mem (a := e)
    apply List.mem_filter.mpr
    refine ⟨he, ?_⟩
    simp [het]

/-- C2 witness: the minimum-cutoff snapshot property evaluated on the
5-node example graph with core `{A}`. -/
theorem C2_witness :
    ∃ els, get_elements exG5 (minTimestamp exG5) ["A"] none = some els ∧
      (∀ x : String,
        (∃ d : NodeData, Element.node d ∈ els ∧ d.id = x) ↔ x ∈ ["A"]) ∧
      (∀ el ∈ els, ∃ d : NodeData, el = Element.node d ∧ d.isCore = true) ∧
      qualifyingEvents exG5 (minTimestamp exG5) ≠ [] :=
  C2_min_cutoff_snapshot exG5 ["A"] (by decide) (by decide) (by decide)

/-! ### C3: monotonicity in the cutoff -/

lemma qualifying_count_mono (G : Graph) (k : String × String) {ts1 ts2 : ℚ}
    (h : ts1 ≤ ts2) :
    ((qualifyingEvents G ts1).filter (contrib k)).length ≤
      ((qualifyingEvents G ts2).filter (contrib k)).length := by
  unfold qualifyingEvents
  rw [List.filter_filter, List.filter_filter]
  apply length_filter_mono
  intro e _ hpe
  rw [Bool.and_eq_true] at hpe ⊢
  rcases hpe with ⟨h1, h2⟩
  refine ⟨h1, ?_⟩
  rw [decide_eq_true_eq] at h2 ⊢
  exact le_trans h2 h

/-- C3: for cutoffs `ts1 < ts2`, every aggregated edge present at `ts1` is
still present at `ts2` with a weight at least as large, and the active
node set at `ts1` is contained in the active node set at `ts2`. -/
theorem C3_monotone (G : Graph) (core : List String) (ts1 ts2 : ℚ)
    (h : ts1 < ts2) :
    (∀ (k : String × String) (d1 : EdgeData),
      lookupA k (buildEdgeDict G ts1) = some d1 →
        ∃ d2, lookupA k (buildEdgeDict G ts2) = some d2 ∧
          d1.weight ≤ d2.weight) ∧
    (∀ x, x ∈ activeNodes G ts1 core → x ∈ activeNodes G ts2 core) := by
  constructor
  · intro k d1 hd1
    have hw1 : d1.weight = ((qualifyingEvents G ts1).filter (contrib k)).length := by
      have := buildEdgeDict_weight G ts1 k
      unfold dictWeight at this
      rw [hd1] at this
      exact this
    have hpos : 0 < ((qualifyingEvents G ts1).filter (contrib k)).length := by
      have hs := buildEdgeDict_isSome G ts1 k
      rw [hd1] at hs
      exact (any_eq_true_iff_filter_pos _ _).mp hs.symm
    have hmono := qualifying_count_mono G k (le_of_lt h)
    have hpos2 : 0 < ((qualifyingEvents G ts2).filter (contrib k)).length :=
      lt_of_lt_of_le hpos hmono
    have hs2 : (lookupA k (buildEdgeDict G ts2)).isSome = true := by
      rw [buildEdgeDict_isSome]
      exact (any_eq_true_iff_filter_pos _ _).mpr hpos2
    obtain ⟨d2, hd2⟩ := Option.isSome_iff_exists.mp hs2
    refine ⟨d2, hd2, ?_⟩
    have hw2 : d2.weight = ((qualifyingEvents G ts2).filter (contrib k)).length := by
      have := buildEdgeDict_weight G ts2 k
      unfold dictWeight at this
      rw [hd2] at this
      exact this
    rw [hw1, hw2]
    exact hmono
  · intro x hx
    rcases mem_activeNodes.mp hx with h' | ⟨e, he, hxe⟩
    · exact mem_activeNodes.mpr (Or.inl h')
    · refine mem_activeNodes.mpr (Or.inr ⟨e, ?_, hxe⟩)
      have hm := List.mem_filter.mp he
      apply List.mem_filter.mpr
      refine ⟨hm.1, ?_⟩
      rw [decide_eq_true_eq] at hm ⊢
      exact le_trans hm.2 (le_of_lt h)

/-- C3 witness: monotonicity of the 5-node example between cutoffs 2
and 4. -/
theorem C3_witness :
    (∀ (k : String × String) (d1 : EdgeData),
      lookupA k (buildEdgeDict exG5 2) = some d1 →
        ∃ d2, lookupA k (buildEdgeDict exG5 4) = some d2 ∧
          d1.weight ≤ d2.weight) ∧
    (∀ x, x ∈ activeNodes exG5 2 ["A"] → x ∈ activeNodes exG5 4 ["A"]) :=
  C3_monotone exG5 ["A"] 2 4 (by norm_num)

/-! ### C4: pair symmetry and self-loop exclusion -/

lemma contrib_eq_pair_decide {a b : String} (hab : a ≠ b) :
    ∀ e : Event, contrib (edgeKey a b) e =
      decide ((e.source = a ∧ e.target = b) ∨
        (e.source = b ∧ e.target = a)) := by
  intro e
  by_cases hP : (e.source = a ∧ e.target = b) ∨
      (e.source = b ∧ e.target = a)
  · rw [(contrib_edgeKey_iff hab e).mpr hP, decide_eq_true hP]
  · have h1 : contrib (edgeKey a b) e ≠ true :=
      fun h => hP ((contrib_edgeKey_iff hab e).mp h)
    rw [Bool.eq_false_iff.mpr h1, decide_eq_false hP]

/-- C4: events between `a` and `b` in either direction, at or before the
cutoff, aggregate into the single edge keyed by the canonical unordered
pair: its weight is the combined two-direction event count, it exists
exactly when that count is positive, and no self-loop key is ever
present. -/
theorem C4_pair_symmetry (G : Graph) (ts : ℚ) (a b : String) (hab : a ≠ b) :
    (∀ d : EdgeData, lookupA (edgeKey a b) (buildEdgeDict G ts) = some d →
      d.weight = eventsBetween (qualifyingEvents G ts) a b) ∧
    ((lookupA (edgeKey a b) (buildEdgeDict G ts)).isSome = true ↔
      0 < eventsBetween (qualifyingEvents G ts) a b) ∧
    (∀ x : String, lookupA (x, x) (buildEdgeDict G ts) = none) := by
  have hfil : (qualifyingEvents G ts).filter (contrib (edgeKey a b)) =
      (qualifyingEvents G ts).filter (fun e =>
        decide ((e.source = a ∧ e.target = b) ∨
          (e.source = b ∧ e.target = a))) :=
    List.filter_congr (fun e _ => contrib_eq_pair_decide hab e)
  refine ⟨?_, ?_, fun x => lookupA_selfKey_buildEdgeDict G ts x⟩
  · intro d hd
    have hw : d.weight =
        ((qualifyingEvents G ts).filter (contrib (edgeKey a b))).length := by
      have h0 := buildEdgeDict_weight G ts (edgeKey a b)
      unfold dictWeight at h0
      rw [hd] at h0
      exact h0
    rw [hw, hfil]
    rfl
  · rw [buildEdgeDict_isSome, any_eq_true_iff_filter_pos, hfil]
    rfl

/-- C4 witness: `C4_pair_symmetry` evaluated on the 5-node example for the
pair `{A, B}` at cutoff 4. -/
theorem C4_witness :
    (∀ d : EdgeData, lookupA (edgeKey "A" "B") (buildEdgeDict exG5 4) = some d →
      d.weight = eventsBetween (qualifyingEvents exG5 4) "A" "B") ∧
    ((lookupA (edgeKey "A" "B") (buildEdgeDict exG5 4)).isSome = true ↔
      0 < eventsBetween (qualifyingEvents exG5 4) "A" "B") ∧
    (∀ x : String, lookupA (x, x) (buildEdgeDict exG5 4) = none) :=
  C4_pair_symmetry exG5 4 "A" "B" (by decide)

/-! ### C5: the rank selector -/

/-- C5: for a cutoff at or above the global minimum timestamp, the
highlight count `N` computed by the source equals
`clamp(floor(linearRescale(cutoff, globalMin, globalMax, 1, 10)), 0, 10)`,
the spotlighted set is the first `N` entries of the local ranking, and an
aggregated edge of the snapshot (built without a focal node) carries
`edge_to_core = true` exactly when it directly joins a top-`N` non-core
node and a core node. -/
theorem C5_rank_selector (G : Graph) (ts : ℚ) (core : List String)
    (hev : G.events ≠ []) (hts : minTimestamp G ≤ ts) :
    rankN G ts =
      max 0 (min ⌊normalize_value ts (minTimestamp G) (maxTimestamp G) 1 10⌋ 10) ∧
    topNNodes G ts core = (sortedNodes G ts core).take (rankN G ts).toNat ∧
    (∀ el ∈ (get_elements G ts core none).getD [], ∀ d : EdgeData,
      el = Element.edge d →
        (d.edgeToCore = true ↔
          ((d.source ∈ topNNodes G ts core ∧ d.target ∈ core) ∨
           (d.target ∈ topNNodes G ts core ∧ d.source ∈ core)))) := by
  have hv : 1 ≤ normalize_value ts (minTimestamp G) (maxTimestamp G) 1 10 :=
    one_le_normalize hts (minTimestamp_le_maxTimestamp hev)
  have hv0 : (0 : ℚ) ≤ normalize_value ts (minTimestamp G) (maxTimestamp G) 1 10 :=
    le_trans (by norm_num) hv
  have hfl : (1 : ℤ) ≤ ⌊normalize_value ts (minTimestamp G) (maxTimestamp G) 1 10⌋ := by
    rw [Int.le_floor]
    exact_mod_cast hv
  have hrank : rankN G ts =
      min ⌊normalize_value ts (minTimestamp G) (maxTimestamp G) 1 10⌋ 10 := by
    unfold rankN
    rw [pyInt_of_nonneg hv0]
  have hrank0 : (0 : ℤ) ≤ rankN G ts := by
    rw [hrank]
    exact le_min (le_trans (by norm_num) hfl) (by norm_num)
  refine ⟨?_, ?_, ?_⟩
  · rw [hrank, max_eq_right]
    rw [← hrank]
    exact hrank0
  · unfold topNNodes pySlice
    rw [if_pos hrank0]
  · intro el hel d hd
    subst hd
    by_cases hemp : G.events.isEmpty
    · simp [get_elements, hemp] at hel
    · cases hres : resolveNodes G (activeNodes G ts core) with
      | none => simp [get_elements, hemp, hres] at hel
      | some r =>
          rw [show get_elements G ts core none =
              some (finalFilter G ts (assembledElems G ts core r)) from by
            simp [get_elements, hemp, hres]] at hel
          rw [Option.getD_some] at hel
          have hel2 : Element.edge d ∈ assembledElems G ts core r := by
            unfold finalFilter at hel
            by_cases hle : ts ≤ minTimestamp G
            · rw [if_pos hle] at hel
              exact (List.mem_filter.mp hel).1
            · rw [if_neg hle] at hel
              exact hel
          unfold assembledElems at hel2
          rcases List.mem_append.mp hel2 with hL | hR
          · rcases List.mem_map.mp hL with ⟨p, _, hpe⟩
            exact absurd hpe (by simp)
          · by_cases hlt : minTimestamp G < ts
            · rw [if_pos hlt] at hR
              rcases List.mem_map.mp hR with ⟨kv, hkv, hke⟩
              have hkd : kv.2 = d := by injection hke
              unfold markEdges at hkv
              rcases List.mem_map.mp hkv with ⟨kv0, _, hkv0⟩
              have hd2 : d.edgeToCore =
                  decide ((kv0.2.source ∈ topNNodes G ts core ∧
                      kv0.2.target ∈ core) ∨
                    (kv0.2.target ∈ topNNodes G ts core ∧
                      kv0.2.source ∈ core)) ∧
                  d.source = kv0.2.source ∧ d.target = kv0.2.target := by
                rw [← hkd, ← hkv0]
                exact ⟨rfl, rfl, rfl⟩
              rcases hd2 with ⟨hflag, hsrc, htgt⟩
              rw [hflag, hsrc, htgt]
              simp
            · rw [if_neg hlt] at hR
              simp at hR

/-- C5 witness: the rank-selector property evaluated on the 5-node
example at cutoff 4. -/
theorem C5_witness :
    rankN exG5 4 =
      max 0 (min ⌊normalize_value 4 (minTimestamp exG5) (maxTimestamp exG5) 1 10⌋ 10) ∧
    topNNodes exG5 4 ["A"] = (sortedNodes exG5 4 ["A"]).take (rankN exG5 4).toNat ∧
    (∀ el ∈ (get_elements exG5 4 ["A"] none).getD [], ∀ d : EdgeData,
      el = Element.edge d →
        (d.edgeToCore = true ↔
          ((d.source ∈ topNNodes exG5 4 ["A"] ∧ d.target ∈ ["A"]) ∨
           (d.target ∈ topNNodes exG5 4 ["A"] ∧ d.source ∈ ["A"])))) :=
  C5_rank_selector exG5 4 ["A"] (by decide) (by norm_num [minTimestamp, exG5])

/-! ### C6: the focal-node highlighter -/

/-- Checker for the example: a node element is marked on-path exactly when
its id is in `expected`. -/
def highlightNodeOK (expected : List String) : Element → Bool
  | .node d => (d.nodeToCore == some true) == decide (d.id ∈ expected)
  | .edge _ => true

/-- Checker for the example: an edge element carries `edge_to_core = true`
exactly when its canonical key is in `expectedKeys`. -/
def highlightEdgeOK (expectedKeys : List (String × String)) : Element → Bool
  | .edge d => (d.edgeToCore == true) == decide (edgeKey d.source d.target ∈ expectedKeys)
  | .node _ => true

/-- C6: with a focal node given, every node element's `node_to_core` mark
is exactly membership of its id in the union of nodes of the found
shortest paths, and every edge element's `edge_to_core` flag is recomputed
(overriding the rank-selector spotlight) to membership of the edge, in
either orientation, in the union of found path edges.  On the 5-node
example with focal `D` and core `{A}` the found path is D-C-A, the on-path
nodes are exactly {D, C, A}, and exactly the edges C-D and C-A are
flagged true (in particular B-C is false). -/
theorem C6_highlighter :
    (∀ (G : Graph) (ts : ℚ) (core : List String) (focal : String)
      (pns : List String) (pes : List (String × String)),
      collectPaths (hasSimpleEdge G ts) (activeNodes G ts core) focal core =
        some (pns, pes) →
      ∀ el ∈ (get_elements G ts core (some focal)).getD [],
        (∀ d : NodeData, el = Element.node d →
          d.nodeToCore = some (decide (d.id ∈ pns))) ∧
        (∀ d : EdgeData, el = Element.edge d →
          d.edgeToCore = decide ((d.source, d.target) ∈ pes ∨
            (d.target, d.source) ∈ pes))) ∧
    collectPaths (hasSimpleEdge exG5 4) (activeNodes exG5 4 ["A"]) "D" ["A"] =
      some (["D", "C", "A"], [("D", "C"), ("C", "A")]) ∧
    ((get_elements exG5 4 ["A"] (some "D")).getD []).all
      (highlightNodeOK ["D", "C", "A"]) = true ∧
    ((get_elements exG5 4 ["A"] (some "D")).getD []).all
      (highlightEdgeOK [("C", "D"), ("A", "C")]) = true := by
  refine ⟨?_, by decide, by decide, by decide⟩
  intro G ts core focal pns pes hcp el hel
  by_cases hemp : G.events.isEmpty
  · simp [get_elements, hemp] at hel
  · cases hres : resolveNodes G (activeNodes G ts core) with
    | none => simp [get_elements, hemp, hres] at hel
    | some r =>
        rw [show get_elements G ts core (some focal) =
            some (finalFilter G ts ((assembledElems G ts core r).map
              (applyHighlight pns pes))) from by
          simp [get_elements, hemp, hres, hcp]] at hel
        rw [Option.getD_some] at hel
        have hel2 : el ∈ (assembledElems G ts core r).map
            (applyHighlight pns pes) := by
          unfold finalFilter at hel
          by_cases hle : ts ≤ minTimestamp G
          · rw [if_pos hle] at hel
            exact (List.mem_filter.mp hel).1
          · rw [if_neg hle] at hel
            exact hel
        rcases List.mem_map.mp hel2 with ⟨el0, _, hh⟩
        constructor
        · intro d hd
          rw [hd] at hh
          cases el0 with
          | node d0 =>
              injection hh with h2
              rw [← h2]
          | edge d0 =>
              exact absurd hh (by simp [applyHighlight])
        · intro d hd
          rw [hd] at hh
          cases el0 with
          | node d0 =>
              exact absurd hh (by simp [applyHighlight])
          | edge d0 =>
              injection hh with h2
              rw [← h2]

/-- C6 witness: the general highlighter property instantiated on the
5-node example with its found path union. -/
theorem C6_witness :
    ∀ el ∈ (get_elements exG5 4 ["A"] (some "D")).getD [],
      (∀ d : NodeData, el = Element.node d →
        d.nodeToCore = some (decide (d.id ∈ ["D", "C", "A"]))) ∧
      (∀ d : EdgeData, el = Element.edge d →
        d.edgeToCore = decide ((d.source, d.target) ∈ [("D", "C"), ("C", "A")] ∨
          (d.target, d.source) ∈ [("D", "C"), ("C", "A")])) :=
  C6_highlighter.1 exG5 4 ["A"] "D" ["D", "C", "A"] [("D", "C"), ("C", "A")]
    (by decide)

/-! ### C7: node metrics -/

/-- C7: node metrics are computed on the snapshot's undirected simple
projection (`temp_G`, multiplicities collapsed): every published node
element (non-core; core elements publish no numeric metrics) carries
degree centrality equal to its projection degree divided by `n - 1` and
betweenness equal to the standard unweighted shortest-path betweenness of
the projection, where every edge costs one hop regardless of aggregated
weight; isolated nodes get 0 for both metrics; when the active node set
has fewer than 2 nodes every element is a core element, so no metric is
published; and on the 5-node example at cutoff `t4` (active nodes
{A, B, C, D}, edges A-B, A-C, B-C, C-D), betweenness(C) exceeds
betweenness(B). -/
theorem C7_metrics :
    (∀ (G : Graph) (ts : ℚ) (core : List String), core ≠ [] →
      ∀ el ∈ (get_elements G ts core none).getD [], ∀ d : NodeData,
        el = Element.node d →
          (d.isCore = false →
            d.centrality = some
              ((simpleDegree (hasSimpleEdge G ts) (activeNodes G ts core) d.id : ℚ) /
                (((activeNodes G ts core).length : ℚ) - 1)) ∧
            d.betweenness = some
              (betweennessCent (hasSimpleEdge G ts) (activeNodes G ts core) d.id)) ∧
          (d.isCore = false → (∀ u, hasSimpleEdge G ts u d.id = false) →
            d.centrality = some 0 ∧ d.betweenness = some 0) ∧
          ((activeNodes G ts core).length < 2 → d.isCore = true)) ∧
    betweennessCent (hasSimpleEdge exG5 4) (activeNodes exG5 4 ["A"]) "C" >
      betweennessCent (hasSimpleEdge exG5 4) (activeNodes exG5 4 ["A"]) "B" ∧
    (∀ x ∈ activeNodes exG5 4 ["A"], x ∈ ["A", "B", "C", "D"]) ∧
    (∀ x ∈ ["A", "B", "C", "D"], x ∈ activeNodes exG5 4 ["A"]) := by
  refine ⟨?_, by decide, by decide, by decide⟩
  intro G ts core hcne el hel d hd
  subst hd
  by_cases hemp : G.events.isEmpty
  · simp [get_elements, hemp] at hel
  · cases hres : resolveNodes G (activeNodes G ts core) with
    | none => simp [get_elements, hemp, hres] at hel
    | some r =>
        rw [show get_elements G ts core none =
            some (finalFilter G ts (assembledElems G ts core r)) from by
          simp [get_elements, hemp, hres]] at hel
        rw [Option.getD_some] at hel
        have hel2 : Element.node d ∈ assembledElems G ts core r := by
          unfold finalFilter at hel
          by_cases hle : ts ≤ minTimestamp G
          · rw [if_pos hle] at hel
            exact (List.mem_filter.mp hel).1
          · rw [if_neg hle] at hel
            exact hel
        unfold assembledElems at hel2
        rcases List.mem_append.mp hel2 with hL | hR
        swap
        · exfalso
          by_cases hlt : minTimestamp G < ts
          · rw [if_pos hlt] at hR
            rcases List.mem_map.mp hR with ⟨kv, _, hke⟩
            exact absurd hke (by simp)
          · rw [if_neg hlt] at hR
            simp at hR
        rcases List.mem_map.mp hL with ⟨p, hp, hpe⟩
        have hdm : mkNodeData G ts core p.1 p.2 = d := by injection hpe
        obtain ⟨hfst, _⟩ := resolveNodes_some_facts hres
        have hpa : p.1 ∈ activeNodes G ts core := by
          rw [← hfst]
          exact List.mem_map_of_mem Prod.fst hp
        have hid : d.id = p.1 := by rw [← hdm, mkNodeData_id]
        have hkey : ∀ (hnc : d.isCore = false),
            p.1 ∉ core ∧ 2 ≤ (activeNodes G ts core).length := by
          intro hnc
          rw [← hdm, mkNodeData_isCore] at hnc
          have hpnc : p.1 ∉ core := of_decide_eq_false hnc
          rcases List.exists_mem_of_ne_nil core hcne with ⟨c, hc⟩
          have hca : c ∈ activeNodes G ts core := core_subset_activeNodes hc
          exact ⟨hpnc, two_le_length_of_two_mem hpa hca
            (fun h => hpnc (h ▸ hc))⟩
        have hmain : ∀ (hnc : d.isCore = false),
            d.centrality = some
              ((simpleDegree (hasSimpleEdge G ts) (activeNodes G ts core) d.id : ℚ) /
                (((activeNodes G ts core).length : ℚ) - 1)) ∧
            d.betweenness = some
              (betweennessCent (hasSimpleEdge G ts) (activeNodes G ts core) d.id) := by
          intro hnc
          obtain ⟨hpnc, hlen⟩ := hkey hnc
          have hdec : decide (p.1 ∈ core) = false := decide_eq_false hpnc
          constructor
          · rw [← hdm, mkNodeData_centrality, hdec, if_neg (by simp), mkNodeData_id]
            unfold degreeCent
            rw [if_neg (by omega)]
          · rw [← hdm, mkNodeData_betweenness, hdec, if_neg (by simp), mkNodeData_id]
        refine ⟨hmain, ?_, ?_⟩
        · intro hnc hiso
          obtain ⟨h1, h2⟩ := hmain hnc
          constructor
          · rw [h1]
            have hdeg : simpleDegree (hasSimpleEdge G ts)
                (activeNodes G ts core) d.id = 0 := by
              unfold simpleDegree
              have hnil : (activeNodes G ts core).filter
                  (fun u => hasSimpleEdge G ts d.id u) = [] := by
                rw [List.filter_eq_nil_iff]
                intro u _
                rw [hasSimpleEdge_symm d.id u, hiso u]
                simp
              rw [hnil, hasSimpleEdge_symm d.id d.id, hiso d.id]
              rfl
            rw [hdeg]
            norm_num
          · rw [h2]
            rw [betweennessCent_isolated (fun u => hiso u)]
        · intro hlt
          by_contra hnc
          rw [Bool.not_eq_true] at hnc
          obtain ⟨_, hlen⟩ := hkey hnc
          omega

/-- C7 witness: the metrics property instantiated on the 5-node example
with core `{A}` at cutoff 4. -/
theorem C7_witness :
    ∀ el ∈ (get_elements exG5 4 ["A"] none).getD [], ∀ d : NodeData,
      el = Element.node d →
        (d.isCore = false →
          d.centrality = some
            ((simpleDegree (hasSimpleEdge exG5 4) (activeNodes exG5 4 ["A"]) d.id : ℚ) /
              (((activeNodes exG5 4 ["A"]).length : ℚ) - 1)) ∧
          d.betweenness = some
            (betweennessCent (hasSimpleEdge exG5 4) (activeNodes exG5 4 ["A"]) d.id)) ∧
        (d.isCore = false → (∀ u, hasSimpleEdge exG5 4 u d.id = false) →
          d.centrality = some 0 ∧ d.betweenness = some 0) ∧
        ((activeNodes exG5 4 ["A"]).length < 2 → d.isCore = true) :=
  C7_metrics.1 exG5 4 ["A"] (by decide)

/-! ### C8: core ids absent from the graph -/

/-- C8 counterexample: the id "Missing", supplied as a core id but absent
from the graph, is dropped by the global filter instead of being retained
as an isolated core node, and the snapshot build on the filtered graph
then fails (the `G.nodes[node]` lookup raises `KeyError`), so no snapshot
contains it. -/
theorem C8_counterexample :
    "Missing" ∉ (filter_graph exG1 ["A", "Missing"] 25).nodeIds ∧
    get_elements (filter_graph exG1 ["A", "Missing"] 25) 10
      ["A", "Missing"] none = none := by
  decide

/-- C8 (amended): a supplied core id absent from the graph is silently
dropped by the global filter (`G.subgraph` ignores unknown ids) and the
snapshot build over the filtered graph then always fails — with a
`KeyError` on the missing node's attribute lookup, or earlier on an
event-free filtered graph — so the id appears in no snapshot. -/
theorem C8_missing_core (G : Graph) (core : List String) (c : String)
    (topN : Nat) (ts : ℚ) (hc : c ∈ core) (hng : c ∉ G.nodeIds) :
    c ∉ (filter_graph G core topN).nodeIds ∧
    get_elements (filter_graph G core topN) ts core none = none := by
  have hdrop : c ∉ (filter_graph G core topN).nodeIds := by
    intro hmem
    unfold filter_graph Graph.nodeIds at hmem
    rcases List.mem_map.mp hmem with ⟨p, hp, hpc⟩
    have hp' := List.mem_filter.mp hp
    exact hng (hpc ▸ List.mem_map_of_mem Prod.fst hp'.1)
  refine ⟨hdrop, ?_⟩
  by_cases hemp : (filter_graph G core topN).events.isEmpty
  · simp [get_elements, hemp]
  · have hres : resolveNodes (filter_graph G core topN)
        (activeNodes (filter_graph G core topN) ts core) = none := by
      apply resolveNodes_eq_none (x := c)
      · exact core_subset_activeNodes hc
      · rw [lookupA_eq_none_iff]
        exact hdrop
    simp [get_elements, hemp, hres]

/-- C8 witness: `C8_missing_core` evaluated on the example graph with the
absent core id "Missing" at cutoff 5. -/
theorem C8_witness :
    "Missing" ∉ (filter_graph exG1 ["A", "Missing"] 25).nodeIds ∧
    get_elements (filter_graph exG1 ["A", "Missing"] 25) 5
      ["A", "Missing"] none = none :=
  C8_missing_core exG1 ["A", "Missing"] "Missing" 25 5 (by decide) (by decide)

/-! ### C9: unreachable core nodes and missing focal nodes -/

/-- C9 counterexample: a tapped focal id absent from the snapshot's
active nodes makes the highlight computation fail — `nx.shortest_path`
raises `NodeNotFound`, which the source's `except NetworkXNoPath` does
not catch — rather than being silently skipped. -/
theorem C9_counterexample :
    get_elements exG5 4 ["A"] (some "Z") = none := by decide

lemma shortestPath_ne_nodeNotFound {adj : String → String → Bool}
    {nodes : List String} {s t : String} (hs : s ∈ nodes) (ht : t ∈ nodes) :
    shortestPath adj nodes s t ≠ PathResult.nodeNotFound := by
  unfold shortestPath
  rw [if_pos ⟨hs, ht⟩]
  cases lookupA t (bfsDistances adj nodes s) <;> simp

lemma collectPaths_isSome {adj : String → String → Bool}
    {nodes : List String} {focal : String} (hf : focal ∈ nodes) :
    ∀ cs : List String, (∀ c ∈ cs, c ∈ nodes) →
      (collectPaths adj nodes focal cs).isSome := by
  intro cs
  induction cs with
  | nil => intro _; simp [collectPaths]
  | cons c rest ih =>
      intro h
      have hc : c ∈ nodes := h c (List.mem_cons_self c rest)
      have hrest := ih (fun x hx => h x (List.mem_cons_of_mem c hx))
      unfold collectPaths
      cases hsp : shortestPath adj nodes focal c with
      | nodeNotFound => exact absurd hsp (shortestPath_ne_nodeNotFound hf hc)
      | noPath => exact hrest
      | found p =>
          cases hcp : collectPaths adj nodes focal rest with
          | none => rw [hcp] at hrest; simp at hrest
          | some acc => simp [hcp]

/-- C9 (amended): when the focal node is among the snapshot's active
nodes the highlight computation never fails, and a core node with no path
from the focal node is silently skipped, contributing nothing to the
highlighted union; a focal id outside the active node set, however, makes
the computation fail (see the counterexample). -/
theorem C9_unreachable_core (G : Graph) (ts : ℚ) (core : List String)
    (focal : String) (hev : G.events ≠ [])
    (hsub : ∀ x ∈ activeNodes G ts core, x ∈ G.nodeIds)
    (hf : focal ∈ activeNodes G ts core) :
    (get_elements G ts core (some focal)).isSome = true ∧
    (∀ (adj : String → String → Bool) (nodes : List String)
      (f c : String) (cs : List String),
      shortestPath adj nodes f c = PathResult.noPath →
      collectPaths adj nodes f (c :: cs) = collectPaths adj nodes f cs) := by
  constructor
  · have hemp := isEmpty_eq_false_of_ne_nil hev
    obtain ⟨r, hr⟩ := Option.isSome_iff_exists.mp (resolveNodes_isSome hsub)
    have hcp : (collectPaths (hasSimpleEdge G ts) (activeNodes G ts core)
        focal core).isSome :=
      collectPaths_isSome hf core (fun c hc => core_subset_activeNodes hc)
    obtain ⟨pp, hpp⟩ := Option.isSome_iff_exists.mp hcp
    simp [get_elements, hemp, hr, hpp]
  · intro adj nodes f c cs h
    simp only [collectPaths, h]

/-- C9 witness: the amended property evaluated on the 5-node example with
focal node `D`. -/
theorem C9_witness :
    (get_elements exG5 4 ["A"] (some "D")).isSome = true ∧
    (∀ (adj : String → String → Bool) (nodes : List String)
      (f c : String) (cs : List String),
      shortestPath adj nodes f c = PathResult.noPath →
      collectPaths adj nodes f (c :: cs) = collectPaths adj nodes f cs) :=
  C9_unreachable_core exG5 4 ["A"] "D" (by decide) (by decide) (by decide)

/-! ### C10: the empty-core-set guard -/

/-- C10 counterexample: the input " , " parses to an empty core id list,
yet the build guard does not reject it (only a falsy, i.e. empty, input
string short-circuits), and a slider update with a previously stored
graph and this input produces a non-empty snapshot with an empty core
set instead of a rejected request with no output. -/
theorem C10_counterexample :
    parseCoreIds " , " = [] ∧
    build_graph_rejects (some 1) (some " , ") = false ∧
    (update_elements 50 none (some ⟨exG5, 1, 4⟩) " , ").getD [] ≠ [] := by
  refine ⟨by decide, by decide, by decide⟩

/-- C10 (amended): the `build_graph` guard tests only falsiness of the
raw input string — it rejects exactly a missing or empty input, not every
input whose parsed core id list is empty after trimming — and
`update_elements` re-parses the current input and hands the resulting
(possibly empty) core list to the snapshot build over the stored graph,
so a separators-and-whitespace input yields a snapshot rather than a
rejection. -/
theorem C10_empty_core_guard :
    (∀ (n : Nat) (s : String),
      build_graph_rejects (some n) (some s) = true ↔ s = "") ∧
    (∀ (ts : ℚ) (tap : Option String) (gd : StoredGraph) (s : String),
      update_elements ts tap (some gd) s =
        get_elements gd.graph (gd.minT + ts / 100 * (gd.maxT - gd.minT))
          (parseCoreIds s) tap) ∧
    parseCoreIds " , " = [] ∧
    (update_elements 50 none (some ⟨exG5, 1, 4⟩) " , ").getD [] ≠ [] := by
  refine ⟨?_, fun _ _ _ _ => rfl, by decide, by decide⟩
  intro n s
  simp [build_graph_rejects]

end GraphViz
